import Mathlib

/-!
Shallow embedding of the gotrack repository (Go) for verification.

Pomodoro timer engine: `internal/tracker/pomodoro/pomodoro.go` and the
`State` type from the same package.  The Go engine runs one background
ticker goroutine; all state mutation is serialized under a mutex, so the
sequential semantics below models each control call and each delivered
tick as one atomic state transformation.  Durations (`time.Duration`,
int64 nanoseconds in Go) are modelled as `Int` in milliseconds; one tick
is 100 ms.  The counters `cycles`/`workSessions` and the configuration
field `LongBreakInterval` are Go `int`s that only ever hold nonnegative
values (zero-initialised, incremented, reset to zero), modelled as `Nat`.
The `ticker`/`tickerQuit`/goroutine machinery is modelled by the single
flag `tickerAlive` (ticks are delivered only while it is set), and the
`lastTick` timestamp by the flag `lastTickSet` (`lastTick != zero value`).
-/

namespace GoTrack

/-- Pomodoro timer state, from the Go `State` enum
(`StateIdle`, `StateWorking`, `StateShortBreak`, `StateLongBreak`,
`StatePaused`). -/
inductive State where
  | idle
  | working
  | shortBreak
  | longBreak
  | paused
deriving DecidableEq, Repr

/-- Configuration, from Go `config.PomodoroConfig`:
work duration, short-break duration, long-break duration (ms),
number of work sessions before a long break, auto-start flag. -/
structure PomodoroConfig where
  WorkDuration : Int
  BreakDuration : Int
  LongBreak : Int
  LongBreakInterval : Nat
  AutoStartBreak : Bool
deriving DecidableEq, Repr

/-- Engine state, from the Go `Pomodoro` struct (mutex and callback
fields omitted; `ticker`+goroutine becomes `tickerAlive`, the
`lastTick` time becomes `lastTickSet`). -/
structure Pomodoro where
  config : PomodoroConfig
  state : State
  remaining : Int
  cycles : Nat
  workSessions : Nat
  tickerAlive : Bool
  lastTickSet : Bool
deriving DecidableEq, Repr

/-- Tick granularity: the Go ticker fires every `100 * time.Millisecond`
and each tick subtracts that same amount from `remaining`. -/
def tickGranularity : Int := 100

/-- Constructor `New`: idle, remaining preset to the work duration,
counters zero, no ticker armed, `lastTick` zero. -/
def new (cfg : PomodoroConfig) : Pomodoro :=
  { config := cfg
    state := .idle
    remaining := cfg.WorkDuration
    cycles := 0
    workSessions := 0
    tickerAlive := false
    lastTickSet := false }

/-- State effect of Go `startTicker`: a fresh ticker is armed
(`ticker != nil`, goroutine running) and `lastTick` is set to now. -/
def startTicker (p : Pomodoro) : Pomodoro :=
  { p with tickerAlive := true, lastTickSet := true }

/-- Go `Pomodoro.Start`: error while in an active phase; from `Paused`
enter `Working` keeping `remaining`; from `Idle` reset `remaining` to the
work duration and enter `Working`; on success arm the ticker. -/
def start (p : Pomodoro) : Except String Pomodoro :=
  match p.state with
  | .working | .shortBreak | .longBreak =>
      .error "cannot start: timer is already running"
  | .paused => .ok (startTicker { p with state := .working })
  | .idle =>
      .ok (startTicker { p with remaining := p.config.WorkDuration, state := .working })

/-- Go `Pomodoro.Pause`: no-op unless in an active phase; otherwise stop
the ticker and enter `Paused`, keeping `remaining`. -/
def pause (p : Pomodoro) : Pomodoro :=
  match p.state with
  | .working | .shortBreak | .longBreak =>
      { p with tickerAlive := false, state := .paused }
  | _ => p

/-- Go `Pomodoro.Stop`: retire the ticker, go to `Idle`, zero both
counters, clear `lastTick`; `remaining` is left as it was. -/
def stop (p : Pomodoro) : Pomodoro :=
  { p with
    tickerAlive := false
    state := .idle
    cycles := 0
    workSessions := 0
    lastTickSet := false }

/-- Go `Pomodoro.completeSession`: retire the ticker; from `Working`
increment both counters and pick the next break by
`workSessions > 0 && workSessions % LongBreakInterval == 0`; from a break
go back to `Working`; then re-arm the ticker when
`AutoStartBreak || state == Working` (evaluated on the new state). -/
def completeSession (p : Pomodoro) : Pomodoro :=
  let p1 : Pomodoro := { p with tickerAlive := false }
  let p2 : Pomodoro :=
    match p1.state with
    | .working =>
        let ws := p1.workSessions + 1
        let cy := p1.cycles + 1
        if 0 < ws ∧ ws % p1.config.LongBreakInterval = 0 then
          { p1 with workSessions := ws, cycles := cy,
                    remaining := p1.config.LongBreak, state := .longBreak }
        else
          { p1 with workSessions := ws, cycles := cy,
                    remaining := p1.config.BreakDuration, state := .shortBreak }
    | .shortBreak | .longBreak =>
        { p1 with remaining := p1.config.WorkDuration, state := .working }
    | _ => p1
  if p2.config.AutoStartBreak || p2.state == .working then startTicker p2 else p2

/-- One delivered tick (the body of the goroutine in Go `startTicker`):
ignored outside active phases (no callback); otherwise `remaining` drops
by one granularity, the `onTick` callback receives the new value (also on
the terminal tick), and if it reached zero or below the phase completes.
The second component is the argument passed to `onTick` (`none` when the
callback does not fire). -/
def tick (p : Pomodoro) : Pomodoro × Option Int :=
  match p.state with
  | .working | .shortBreak | .longBreak =>
      let rem := p.remaining - tickGranularity
      let p1 : Pomodoro := { p with remaining := rem }
      if rem ≤ 0 then (completeSession p1, some rem) else (p1, some rem)
  | _ => (p, none)

/-- Accessor `Pomodoro.Remaining`. -/
def Remaining (p : Pomodoro) : Int := p.remaining

/-- Accessor `Pomodoro.Cycles`. -/
def Cycles (p : Pomodoro) : Nat := p.cycles

/-- Externally drivable operations: the three control calls plus a tick
delivery (a tick can only be delivered while a ticker is armed). -/
inductive Op where
  | start
  | pause
  | stop
  | tick
deriving DecidableEq, Repr

/-- Apply one operation.  A failed `Start` leaves the state unchanged;
a tick is delivered only when the ticker is armed. -/
def applyOp (p : Pomodoro) (o : Op) : Pomodoro :=
  match o with
  | .start => match start p with | .ok q => q | .error _ => p
  | .pause => pause p
  | .stop => stop p
  | .tick => if p.tickerAlive then (tick p).1 else p

/-- Run a sequence of operations from a freshly constructed engine. -/
def run (cfg : PomodoroConfig) (ops : List Op) : Pomodoro :=
  ops.foldl applyOp (new cfg)

/-- Reachability from a fresh engine by control calls and ticks. -/
def Reachable (cfg : PomodoroConfig) (p : Pomodoro) : Prop :=
  ∃ ops : List Op, run cfg ops = p

/-- Active (ticking) phases. -/
def activePhase (s : State) : Prop :=
  s = .working ∨ s = .shortBreak ∨ s = .longBreak

instance (s : State) : Decidable (activePhase s) := by
  unfold activePhase; infer_instance

/-!
Session log and analytics: `internal/models` `Session`,
`internal/storage/file_storage.go` (JSONL append-only store, modelled as
the list of stored records), `SessionManager` (`Start`/`Finish`) and
`internal/tracker/analytics/analytics.go`.  Go `time.Time` values are
modelled as `Int` hours since the epoch, with the zero value as `0`
(`IsZero` becomes `== 0`); the calendar day used by
`Format("2006-01-02")` becomes `t.fdiv 24`, and `time.Weekday`
(Sunday = 0, epoch day 0 a Thursday = 4) becomes `(day + 4) % 7`, both
for one fixed location. -/

/-- Session record, from Go `models.Session`: task label, start
timestamp, end timestamp (zero value = still open). -/
structure Session where
  Task : String
  StartTime : Int
  EndTime : Int
deriving DecidableEq, Repr

/-- Go `FileStorage.Save`: validates the record, then appends it to the
JSONL file (the file is opened with `O_APPEND`; an existing record is
never rewritten). -/
def fsSave (store : List Session) (s : Session) : Except String (List Session) :=
  if s.Task == "" then .error "task name cannot be empty"
  else if s.StartTime == 0 then .error "start time cannot be zero"
  else .ok (store ++ [s])

/-- Go `SessionManager.Start`: reject an empty task; reject when the
last stored session is still open (`GetLast` returning `ErrNoSessions`
is tolerated); otherwise save a new record with start = now and a zero
end timestamp. -/
def smStart (store : List Session) (task : String) (now : Int) :
    Except String (List Session) :=
  if task == "" then .error "task name cannot be empty"
  else
    match store.getLast? with
    | some last =>
        if last.EndTime == 0 then
          .error "error starting a new session! previous task is not finished"
        else fsSave store { Task := task, StartTime := now, EndTime := 0 }
    | none => fsSave store { Task := task, StartTime := now, EndTime := 0 }

/-- Go `SessionManager.Finish`: reject an empty store; take the last
stored session, reject when it is already finished, otherwise set its
end timestamp to now and save it (which appends a new record). -/
def smFinish (store : List Session) (now : Int) : Except String (List Session) :=
  match store.getLast? with
  | none => .error "no active session to finish"
  | some last =>
      if last.EndTime == 0 then fsSave store { last with EndTime := now }
      else .error "error ending the session! task is already finished"

/-- Session-manager operations driven by the command surface. -/
inductive SMOp where
  | smStart (task : String) (now : Int)
  | smFinish (now : Int)
deriving DecidableEq, Repr

/-- Apply one session-manager operation; a failed operation leaves the
store unchanged. -/
def applySMOp (store : List Session) (o : SMOp) : List Session :=
  match o with
  | .smStart task now =>
      match smStart store task now with | .ok s => s | .error _ => store
  | .smFinish now =>
      match smFinish store now with | .ok s => s | .error _ => store

/-- Run a sequence of session-manager operations from an empty store. -/
def runSM (ops : List SMOp) : List Session :=
  ops.foldl applySMOp []

/-- Number of stored records with a zero end timestamp. -/
def countOpen (store : List Session) : Nat :=
  (store.filter (fun s => s.EndTime == 0)).length

/-- Task filter used by the duration calculators:
`task == "" || ssn.Task == task`. -/
def matchesTask (task : String) (s : Session) : Bool :=
  task == "" || s.Task == task

/-- Calendar day of a timestamp, modelling `Format("2006-01-02")`. -/
def day (t : Int) : Int := t.fdiv 24

/-- Go `analytics.CalculateTotalDuration`: sum of `EndTime - StartTime`
over the sessions passing the task filter. -/
def CalculateTotalDuration (ssns : List Session) (task : String) : Int :=
  ssns.foldl
    (fun acc s => if matchesTask task s then acc + (s.EndTime - s.StartTime) else acc)
    0

/-- Go `analytics.CalculateTodayDuration`: like the total, restricted to
sessions whose start day equals the current day read from `time.Now()`;
the current time is the explicit `now` argument here. -/
def CalculateTodayDuration (now : Int) (ssns : List Session) (task : String) : Int :=
  ssns.foldl
    (fun acc s =>
      if day s.StartTime == day now && matchesTask task s then
        acc + (s.EndTime - s.StartTime)
      else acc)
    0

/-- Midnight starting the week of `now` (Go: `AddDate(0, 0, -Weekday)`
then `time.Date(...)` at midnight). -/
def startOfWeek (now : Int) : Int :=
  24 * (day now - (day now + 4) % 7)

/-- Go `analytics.CalculateWeeklyDuration`: like the total, restricted
to sessions starting strictly after the start of the current week read
from `time.Now()`; the current time is the explicit `now` argument. -/
def CalculateWeeklyDuration (now : Int) (ssns : List Session) (task : String) : Int :=
  ssns.foldl
    (fun acc s =>
      if decide (startOfWeek now < s.StartTime) && matchesTask task s then
        acc + (s.EndTime - s.StartTime)
      else acc)
    0

/-- Whether the last stored record is still open (zero end timestamp):
the only thing `SessionManager.Start` consults before starting. -/
def openAtEnd (store : List Session) : Bool :=
  match store.getLast? with
  | some l => l.EndTime == 0
  | none => false

/-- Concrete configuration used to instantiate proved theorems:
work, short break and long break of one tick (100 ms) each, long break
every 4 work sessions, auto-continue on. -/
def cfgAuto : PomodoroConfig :=
  { WorkDuration := 100
    BreakDuration := 100
    LongBreak := 100
    LongBreakInterval := 4
    AutoStartBreak := true }

/-- Positivity of the configured durations (the `TimerConfig` invariant
"all durations > 0"). -/
def PosConfig (cfg : PomodoroConfig) : Prop :=
  0 < cfg.WorkDuration ∧ 0 < cfg.BreakDuration ∧ 0 < cfg.LongBreak

/-- C3: while the phase is `Working`, `ShortBreak` or `LongBreak`,
`Start()` returns the already-running error (distinguishable from
success) and mutates nothing: the state after the failed call is the
state before it. -/
theorem start_while_active_errors (p : Pomodoro) (h : activePhase p.state) :
    start p = .error "cannot start: timer is already running" ∧
    applyOp p .start = p := by
  rcases h with h | h | h <;> simp [start, applyOp, h]

/-- Witness for C3 at the state reached by one `Start` from fresh. -/
theorem start_while_active_errors_witness :
    activePhase (run cfgAuto [.start]).state ∧
    start (run cfgAuto [.start]) = .error "cannot start: timer is already running" ∧
    applyOp (run cfgAuto [.start]) .start = run cfgAuto [.start] :=
  ⟨by decide, start_while_active_errors (run cfgAuto [.start]) (by decide)⟩

/-- C7: `Stop()` is total and idempotent: from any state it yields
phase `Idle`, zero cycle and work-session counters, a retired ticker and
cleared remaining-time tracking (`lastTick`), and a second `Stop` leaves
the state identical to the first. -/
theorem stop_idempotent_resets (p : Pomodoro) :
    (stop p).state = .idle ∧ (stop p).cycles = 0 ∧ (stop p).workSessions = 0 ∧
    (stop p).tickerAlive = false ∧ (stop p).lastTickSet = false ∧
    stop (stop p) = stop p := by
  simp [stop]

/-- C2: a phase completion from `Working` increments the completed-cycle
and completed-work-session counters by one each; when the new
work-session count is a nonzero multiple of the configured long-break
interval the engine enters `LongBreak` with the long-break duration
remaining, and otherwise `ShortBreak` with the short-break duration
remaining. -/
theorem completeSession_from_working (p : Pomodoro)
    (hw : p.state = .working) (hi : 1 ≤ p.config.LongBreakInterval) :
    (completeSession p).cycles = p.cycles + 1 ∧
    (completeSession p).workSessions = p.workSessions + 1 ∧
    (p.workSessions + 1 ≠ 0 ∧ p.config.LongBreakInterval ∣ (p.workSessions + 1) →
      (completeSession p).state = .longBreak ∧
      (completeSession p).remaining = p.config.LongBreak) ∧
    (¬(p.workSessions + 1 ≠ 0 ∧ p.config.LongBreakInterval ∣ (p.workSessions + 1)) →
      (completeSession p).state = .shortBreak ∧
      (completeSession p).remaining = p.config.BreakDuration) := by
  by_cases hc : 0 < p.workSessions + 1 ∧
      (p.workSessions + 1) % p.config.LongBreakInterval = 0
  · have hd : p.config.LongBreakInterval ∣ (p.workSessions + 1) :=
      Nat.dvd_of_mod_eq_zero hc.2
    by_cases ha : p.config.AutoStartBreak <;>
      simp [completeSession, hw, hc, ha, startTicker, hd]
  · have hmod : (p.workSessions + 1) % p.config.LongBreakInterval ≠ 0 := by
      intro h
      exact hc ⟨Nat.succ_pos _, h⟩
    have hnd : ¬ p.config.LongBreakInterval ∣ (p.workSessions + 1) := by
      intro hd
      exact hmod (Nat.mod_eq_zero_of_dvd hd)
    by_cases ha : p.config.AutoStartBreak <;>
      simp [completeSession, hw, hmod, ha, startTicker, hnd]

/-- Witness for C2 at the first completion (work session 1, interval 4:
not a multiple, so a short break follows). -/
theorem completeSession_from_working_witness :
    (run cfgAuto [.start]).state = .working ∧
    1 ≤ (run cfgAuto [.start]).config.LongBreakInterval ∧
    ((completeSession (run cfgAuto [.start])).state = .shortBreak ∧
      (completeSession (run cfgAuto [.start])).remaining =
        (run cfgAuto [.start]).config.BreakDuration) := by
  refine ⟨by decide, by decide, ?_⟩
  exact (completeSession_from_working (run cfgAuto [.start]) (by decide)
    (by decide)).2.2.2 (by decide)

/-- C4: after a completion out of an active phase, the ticker stays
armed exactly when the new phase is `Working` or the new phase is a
break and the auto-continue flag is set; in every case the new phase is
parked with its own configured duration remaining (and with the ticker
retired no further tick can be delivered until an explicit `Start`). -/
theorem completeSession_autocontinue (p : Pomodoro) (h : activePhase p.state) :
    ((completeSession p).tickerAlive = true ↔
      ((completeSession p).state = .working ∨
        (((completeSession p).state = .shortBreak ∨
          (completeSession p).state = .longBreak) ∧
          p.config.AutoStartBreak = true))) ∧
    ((completeSession p).state = .working →
      (completeSession p).remaining = p.config.WorkDuration) ∧
    ((completeSession p).state = .shortBreak →
      (completeSession p).remaining = p.config.BreakDuration) ∧
    ((completeSession p).state = .longBreak →
      (completeSession p).remaining = p.config.LongBreak) := by
  rcases h with h | h | h
  · by_cases hm : (p.workSessions + 1) % p.config.LongBreakInterval = 0 <;>
      by_cases ha : p.config.AutoStartBreak <;>
        simp [completeSession, h, hm, ha, startTicker]
  · by_cases ha : p.config.AutoStartBreak <;>
      simp [completeSession, h, ha, startTicker]
  · by_cases ha : p.config.AutoStartBreak <;>
      simp [completeSession, h, ha, startTicker]

/-- Witness for C4: with auto-continue on, the short break after the
first work session keeps the ticker armed. -/
theorem completeSession_autocontinue_witness :
    activePhase (run cfgAuto [.start]).state ∧
    (completeSession (run cfgAuto [.start])).tickerAlive = true := by
  refine ⟨by decide, ?_⟩
  exact (completeSession_autocontinue (run cfgAuto [.start]) (by decide)).1.mpr
    (Or.inr ⟨Or.inl (by decide), by decide⟩)

/-- C5: a tick delivered in an active phase subtracts one granularity
from the remaining time and hands the new value to the tick callback
(also on the terminal tick, where the phase then completes); a tick in
`Idle` or `Paused` changes nothing and fires no callback. -/
theorem tick_spec (p : Pomodoro) :
    (activePhase p.state →
      tick p =
        (if p.remaining - tickGranularity ≤ 0 then
          completeSession { p with remaining := p.remaining - tickGranularity }
        else { p with remaining := p.remaining - tickGranularity },
        some (p.remaining - tickGranularity))) ∧
    (¬ activePhase p.state → tick p = (p, none)) := by
  constructor
  · intro h
    rcases h with h | h | h <;> (simp only [tick, h]; split <;> simp_all)
  · intro h
    cases hs : p.state <;> simp [activePhase, hs] at h ⊢ <;> simp [tick, hs]

/-- Witness for C5: the terminal tick of the first work phase (callback
sees 0) and an ignored tick on a fresh idle engine. -/
theorem tick_spec_witness :
    tick (run cfgAuto [.start]) =
      (completeSession { run cfgAuto [.start] with remaining := 0 }, some 0) ∧
    tick (new cfgAuto) = (new cfgAuto, none) := by
  constructor
  · have h := (tick_spec (run cfgAuto [.start])).1 (by decide)
    rw [h]; decide
  · exact (tick_spec (new cfgAuto)).2 (by decide)

/-- C1 counterexample: reach `ShortBreak` (one tick of work with
auto-continue), pause it, and resume with `Start()`: the engine comes
back in `Working`, not in the `ShortBreak` phase that was suspended, so
a pause/resume does not in general resume the same phase. -/
theorem pause_resume_counterexample :
    (run cfgAuto [.start, .tick]).state = State.shortBreak ∧
    (start (pause (run cfgAuto [.start, .tick]))).map Pomodoro.state =
      Except.ok State.working ∧
    State.working ≠ State.shortBreak :=
  ⟨by decide, by rfl, by decide⟩

/-- C1 amended: resuming from a pause of any active phase succeeds and
preserves the remaining time exactly, but the engine always resumes into
`Working`; the suspended phase is resumed only when it was `Working`. -/
theorem pause_resume_amended (p : Pomodoro) (h : activePhase p.state) :
    ∃ q, start (pause p) = .ok q ∧ q.state = .working ∧
      q.remaining = p.remaining := by
  refine ⟨startTicker { p with tickerAlive := false, state := .working },
    ?_, rfl, rfl⟩
  rcases h with h | h | h <;> simp [pause, start, startTicker, h]

/-- Witness for the amended C1: pause/resume of the first work phase. -/
theorem pause_resume_amended_witness :
    activePhase (run cfgAuto [.start]).state ∧
    ∃ q, start (pause (run cfgAuto [.start])) = .ok q ∧ q.state = .working ∧
      q.remaining = (run cfgAuto [.start]).remaining :=
  ⟨by decide, pause_resume_amended (run cfgAuto [.start]) (by decide)⟩

/-- Helper: any invariant preserved by `applyOp` holds after a whole
operation sequence. -/
theorem foldl_inv {Inv : Pomodoro → Prop}
    (step : ∀ p o, Inv p → Inv (applyOp p o)) :
    ∀ (ops : List Op) (p : Pomodoro), Inv p → Inv (ops.foldl applyOp p) := by
  intro ops
  induction ops with
  | nil => intro p h; exact h
  | cons o ops ih => intro p h; exact ih _ (step p o h)

/-- Helper: a completion out of an active phase keeps the configuration
and leaves a positive configured duration remaining. -/
theorem completeSession_preserves (p : Pomodoro) (hcfg : PosConfig p.config)
    (h : activePhase p.state) :
    (completeSession p).config = p.config ∧ 0 < (completeSession p).remaining := by
  obtain ⟨hw, hb, hl⟩ := hcfg
  rcases h with h | h | h
  · by_cases hm : (p.workSessions + 1) % p.config.LongBreakInterval = 0 <;>
      by_cases ha : p.config.AutoStartBreak <;>
        simp [completeSession, h, hm, ha, startTicker, hw, hb, hl]
  · by_cases ha : p.config.AutoStartBreak <;>
      simp [completeSession, h, ha, startTicker, hw]
  · by_cases ha : p.config.AutoStartBreak <;>
      simp [completeSession, h, ha, startTicker, hw]

/-- Helper: the state after one tick is either unchanged (inactive
phase), the plain decrement (time left), or the completion of the
decremented state (terminal tick). -/
theorem tick_fst_cases (p : Pomodoro) :
    (tick p).1 = p ∨
    (0 < p.remaining - tickGranularity ∧
      (tick p).1 = { p with remaining := p.remaining - tickGranularity }) ∨
    (activePhase p.state ∧
      (tick p).1 = completeSession { p with remaining := p.remaining - tickGranularity }) := by
  cases hs : p.state
  case idle => exact Or.inl (by simp [tick, hs])
  case paused => exact Or.inl (by simp [tick, hs])
  all_goals
    by_cases hz : p.remaining - tickGranularity ≤ 0
  case' pos => exact Or.inr (Or.inr ⟨by simp [activePhase, hs], by simp [tick, hs, hz]⟩)
  case' pos => exact Or.inr (Or.inr ⟨by simp [activePhase, hs], by simp [tick, hs, hz]⟩)
  case' pos => exact Or.inr (Or.inr ⟨by simp [activePhase, hs], by simp [tick, hs, hz]⟩)
  all_goals exact Or.inr (Or.inl ⟨by omega, by simp [tick, hs, hz]⟩)

/-- Helper: every operation keeps the configured durations positive and
the remaining time positive. -/
theorem inv6_step (p : Pomodoro) (o : Op)
    (h : PosConfig p.config ∧ 0 < p.remaining) :
    PosConfig (applyOp p o).config ∧ 0 < (applyOp p o).remaining := by
  obtain ⟨⟨hw, hb, hl⟩, hr⟩ := h
  cases o with
  | start =>
      cases hs : p.state <;>
        simp [applyOp, start, hs, startTicker, PosConfig, hw, hb, hl, hr]
  | pause =>
      cases hs : p.state <;>
        simp [applyOp, pause, hs, PosConfig, hw, hb, hl, hr]
  | stop => simp [applyOp, stop, PosConfig, hw, hb, hl, hr]
  | tick =>
      by_cases halive : p.tickerAlive
      · simp only [applyOp, halive, if_true]
        rcases tick_fst_cases p with hcase | ⟨hpos, hcase⟩ | ⟨hact, hcase⟩ <;>
          rw [hcase]
        · exact ⟨⟨hw, hb, hl⟩, hr⟩
        · exact ⟨⟨hw, hb, hl⟩, hpos⟩
        · have hact' :
              activePhase ({ p with remaining := p.remaining - tickGranularity } : Pomodoro).state :=
            hact
          have hcp := completeSession_preserves
            { p with remaining := p.remaining - tickGranularity } ⟨hw, hb, hl⟩ hact'
          refine ⟨?_, hcp.2⟩
          rw [hcp.1]
          exact ⟨hw, hb, hl⟩
      · simpa [applyOp, halive] using ⟨⟨hw, hb, hl⟩, hr⟩

/-- C6: along every operation sequence from a fresh engine with positive
configured durations, the accessor `Remaining()` never reports a
negative value (each tick that would drive it at or below zero completes
the phase in the same step, resetting it to a configured duration). -/
theorem remaining_never_negative (cfg : PomodoroConfig) (p : Pomodoro)
    (hw : 0 < cfg.WorkDuration) (hb : 0 < cfg.BreakDuration)
    (hl : 0 < cfg.LongBreak) (hi : 1 ≤ cfg.LongBreakInterval)
    (hreach : Reachable cfg p) : 0 ≤ Remaining p := by
  obtain ⟨ops, rfl⟩ := hreach
  have h := foldl_inv inv6_step ops (new cfg) ⟨⟨hw, hb, hl⟩, hw⟩
  exact le_of_lt h.2

/-- Witness for C6 after a start and two ticks. -/
theorem remaining_never_negative_witness :
    (0 : Int) < cfgAuto.WorkDuration ∧ (0 : Int) < cfgAuto.BreakDuration ∧
    (0 : Int) < cfgAuto.LongBreak ∧ 1 ≤ cfgAuto.LongBreakInterval ∧
    Reachable cfgAuto (run cfgAuto [.start, .tick, .tick]) ∧
    0 ≤ Remaining (run cfgAuto [.start, .tick, .tick]) :=
  ⟨by decide, by decide, by decide, by decide, ⟨[.start, .tick, .tick], rfl⟩,
    remaining_never_negative cfgAuto _ (by decide) (by decide) (by decide)
      (by decide) ⟨[.start, .tick, .tick], rfl⟩⟩

/-- Helper: a completion increments both counters together (from
`Working`) or touches neither, so their equality is preserved. -/
theorem completeSession_counters (p : Pomodoro) (h : p.cycles = p.workSessions) :
    (completeSession p).cycles = (completeSession p).workSessions := by
  cases hs : p.state <;>
    by_cases hm : (p.workSessions + 1) % p.config.LongBreakInterval = 0 <;>
      by_cases ha : p.config.AutoStartBreak <;>
        simp [completeSession, hs, hm, ha, startTicker, h]

/-- Helper: every operation preserves equality of the two counters. -/
theorem c10_step (p : Pomodoro) (o : Op) (h : p.cycles = p.workSessions) :
    (applyOp p o).cycles = (applyOp p o).workSessions := by
  cases o with
  | start =>
      cases hs : p.state <;> simp [applyOp, start, hs, startTicker, h]
  | pause => cases hs : p.state <;> simp [applyOp, pause, hs, h]
  | stop => simp [applyOp, stop]
  | tick =>
      by_cases halive : p.tickerAlive
      · simp only [applyOp, halive, if_true]
        rcases tick_fst_cases p with hcase | ⟨_, hcase⟩ | ⟨_, hcase⟩ <;>
          rw [hcase]
        · exact h
        · exact h
        · exact completeSession_counters
            { p with remaining := p.remaining - tickGranularity } h
      · simpa [applyOp, halive] using h

/-- C10: in every reachable engine state the completed-cycle counter
equals the completed-work-session counter, so `Cycles()` returns the
number of completed work sessions. -/
theorem cycles_eq_workSessions (cfg : PomodoroConfig) (p : Pomodoro)
    (hreach : Reachable cfg p) : Cycles p = p.workSessions := by
  obtain ⟨ops, rfl⟩ := hreach
  exact foldl_inv c10_step ops (new cfg) rfl

/-- Witness for C10 after a start and the first completion. -/
theorem cycles_eq_workSessions_witness :
    Reachable cfgAuto (run cfgAuto [.start, .tick]) ∧
    Cycles (run cfgAuto [.start, .tick]) =
      (run cfgAuto [.start, .tick]).workSessions :=
  ⟨⟨[.start, .tick], rfl⟩,
    cycles_eq_workSessions cfgAuto _ ⟨[.start, .tick], rfl⟩⟩

/-- C8 counterexample: `FileStorage.Save` appends, so `Finish` appends a
closed copy and leaves the superseded open record in the stored list:
after start/finish one open record remains, and after a second start two
records with a zero end timestamp are stored at once. -/
theorem session_log_counterexample :
    countOpen (runSM [SMOp.smStart "a" 1, SMOp.smFinish 2]) = 1 ∧
    countOpen (runSM [SMOp.smStart "a" 1, SMOp.smFinish 2, SMOp.smStart "b" 3]) = 2 ∧
    ¬ countOpen (runSM [SMOp.smStart "a" 1, SMOp.smFinish 2, SMOp.smStart "b" 3]) ≤ 1 := by
  decide

/-- C8 amended: only the tail of the append-only log is constrained:
`Start` fails exactly while the last stored record is open and otherwise
appends a fresh open record, and `Finish` on an open last record (with
the validity `Save` enforces on the way in: nonempty task, nonzero start)
appends a closed copy of it, after which the last stored record has a
nonzero end timestamp; superseded open records remain in the list. -/
theorem session_log_amended (store : List Session) (task : String) (now : Int)
    (ht : ¬ task = "") (hn : ¬ now = 0) :
    (openAtEnd store = false →
      smStart store task now =
        .ok (store ++ [{ Task := task, StartTime := now, EndTime := 0 }])) ∧
    (openAtEnd store = true → ∃ e, smStart store task now = .error e) ∧
    (∀ l, store.getLast? = some l → l.EndTime = 0 → ¬ l.Task = "" →
      ¬ l.StartTime = 0 →
      smFinish store now = .ok (store ++ [{ l with EndTime := now }]) ∧
      openAtEnd (store ++ [{ l with EndTime := now }]) = false) := by
  refine ⟨?_, ?_, ?_⟩
  · intro hopen
    cases hlast : store.getLast? with
    | none => simp [smStart, fsSave, ht, hn, hlast]
    | some l =>
        have hcl : (l.EndTime == 0) = false := by
          simpa [openAtEnd, hlast] using hopen
        simp [smStart, fsSave, ht, hn, hlast, hcl]
  · intro hopen
    cases hlast : store.getLast? with
    | none => simp [openAtEnd, hlast] at hopen
    | some l =>
        have he : (l.EndTime == 0) = true := by
          simpa [openAtEnd, hlast] using hopen
        exact ⟨"error starting a new session! previous task is not finished",
          by simp [smStart, ht, hlast, he]⟩
  · intro l hlast hz hlt hls
    refine ⟨by simp [smFinish, hlast, hz, fsSave, hlt, hls], ?_⟩
    simp [openAtEnd, List.getLast?_concat, hn]

/-- Witness for the amended C8: starting over a closed last record
appends a fresh open record. -/
theorem session_log_amended_witness :
    smStart [Session.mk "a" 1 2] "b" 3 =
      .ok [Session.mk "a" 1 2, Session.mk "b" 3 0] := by
  have h := (session_log_amended [Session.mk "a" 1 2] "b" 3 (by decide)
    (by decide)).1 (by decide)
  simpa using h

/-- C9 counterexample: `CalculateTodayDuration` reads the wall clock
(`time.Now()`, the explicit `now` argument of the embedding): the same
session list and task filter give different totals at two different
current times, so the function is not a pure function of the session
list alone. -/
theorem analytics_wallclock_counterexample :
    CalculateTodayDuration 1 [Session.mk "a" 1 2] "" = 1 ∧
    CalculateTodayDuration 30 [Session.mk "a" 1 2] "" = 0 ∧
    CalculateTodayDuration 1 [Session.mk "a" 1 2] "" ≠
      CalculateTodayDuration 30 [Session.mk "a" 1 2] "" := by
  decide

/-- Helper: a duration fold started from an arbitrary accumulator is
the accumulator plus the fold from zero. -/
theorem foldl_dur_shift (c : Session → Bool) (l : List Session) (acc : Int) :
    l.foldl (fun a s => if c s then a + (s.EndTime - s.StartTime) else a) acc =
      acc + l.foldl (fun a s => if c s then a + (s.EndTime - s.StartTime) else a) 0 := by
  induction l generalizing acc with
  | nil => simp
  | cons s l ih =>
      by_cases h : c s
      · simp only [List.foldl_cons, h, if_true]
        rw [ih (acc + (s.EndTime - s.StartTime)), ih (0 + (s.EndTime - s.StartTime))]
        ring
      · simp only [List.foldl_cons, h, if_false]
        exact ih acc

/-- Helper: folding with a conjunction of filters equals folding the
second filter over the list filtered by the first. -/
theorem foldl_dur_filter (c₁ c₂ : Session → Bool) (l : List Session) :
    l.foldl (fun a s => if c₁ s && c₂ s then a + (s.EndTime - s.StartTime) else a) 0 =
      (l.filter c₁).foldl
        (fun a s => if c₂ s then a + (s.EndTime - s.StartTime) else a) 0 := by
  induction l with
  | nil => rfl
  | cons s l ih =>
      by_cases h1 : c₁ s
      · by_cases h2 : c₂ s
        · simp only [List.foldl_cons, List.filter_cons, h1, h2, if_true,
            Bool.and_self]
          rw [foldl_dur_shift, foldl_dur_shift (l := l.filter c₁), ih]
        · have h12 : ¬ (c₁ s && c₂ s) = true := by simp [h2]
          rw [List.foldl_cons, if_neg h12, List.filter_cons, if_pos h1,
            List.foldl_cons, if_neg h2]
          exact ih
      · have h12 : ¬ (c₁ s && c₂ s) = true := by simp [h1]
        rw [List.foldl_cons, if_neg h12, List.filter_cons, if_neg h1]
        exact ih

/-- C9 amended: each duration calculator is deterministic in its
arguments together with the current time it reads; `CalculateTotalDuration`
takes no current time at all, and the today/weekly variants depend on the
current time only through the derived period start: each equals the pure
total-duration fold over the sessions starting in the period. -/
theorem analytics_pure_given_time (now : Int) (ssns : List Session) (task : String) :
    CalculateTodayDuration now ssns task =
      CalculateTotalDuration (ssns.filter (fun s => day s.StartTime == day now)) task ∧
    CalculateWeeklyDuration now ssns task =
      CalculateTotalDuration
        (ssns.filter (fun s => decide (startOfWeek now < s.StartTime))) task := by
  constructor
  · exact foldl_dur_filter (fun s => day s.StartTime == day now)
      (matchesTask task) ssns
  · exact foldl_dur_filter (fun s => decide (startOfWeek now < s.StartTime))
      (matchesTask task) ssns

end GoTrack
